import Mathlib

/-!
Shallow embedding of the replication core of the valuestore repository
(pull replication, push replication, inbound message framing, message
header layout, and configuration resolution), together with theorems
checking the specification's claims against it.

Machine integers are modelled as `Nat` (unsigned) or `Int` (Go `int`),
with explicit reduction modulo `2 ^ 64` at the points where the Go code
can wrap.
-/

namespace Valuestore

/-- Timestamp-bits utility bit 0: DELETION (tombstone).  The constants are
declared in a source file not provided; the spec fixes bit 0 = DELETION. -/
def TSB_DELETION : Nat := 1

/-- Timestamp-bits utility bit 1: LOCAL_REMOVAL (replication suppression).
The spec fixes bit 1 = LOCAL_REMOVAL. -/
def TSB_LOCAL_REMOVAL : Nat := 2

/-- Number of low utility bits in a timestamp-bits word. -/
def TSB_UTIL_BITS : Nat := 8

/-- 2^64, the modulus of Go's uint64 arithmetic. -/
def U64 : Nat := 18446744073709551616

/-- The per-entry condition used by the replication scans
(`outPullReplicationPass`, `inPullReplication`, `outPushReplicationPass`):
`timestampbits&_TSB_LOCAL_REMOVAL == 0 && timestampbits < cutoff &&
(timestampbits&_TSB_DELETION == 0 || timestampbits >= tombstoneCutoff)`. -/
def replicationFilter (cutoff tombstoneCutoff tsb : Nat) : Bool :=
  tsb &&& TSB_LOCAL_REMOVAL == 0 && Nat.blt tsb cutoff &&
    (tsb &&& TSB_DELETION == 0 || Nat.ble tombstoneCutoff tsb)

/-- A value-location-map entry as seen by the replication scan callbacks:
the key halves, the timestamp-bits, the value length, and the result the
inbound pull handler's bloom filter would report for this key
(`ktbf.mayHave(keyA, keyB, timestampbits)`), abstracted as a field. -/
structure Entry where
  keyA : Nat
  keyB : Nat
  tsb : Nat
  length : Nat
  mayHave : Bool
deriving Repr, DecidableEq

/-- The bloom-population scan of `outPullReplicationPass`: the
`ScanCallback` body adds an entry to the k-tuple bloom filter exactly when
`replicationFilter` holds; the bloom filter is modelled as the list of
entries added, in scan order. -/
def outPullBloomAdds (cutoff tombstoneCutoff : Nat) (entries : List Entry) : List Entry :=
  entries.foldl
    (fun ktbf e =>
      if replicationFilter cutoff tombstoneCutoff e.tsb then ktbf ++ [e] else ktbf)
    []

/-- Byte cost charged per selected entry in `inPullReplication`:
`l -= 28 + int64(length)` (bulk-set entry header plus value bytes). -/
def entryCost (e : Entry) : Int := 28 + (e.length : Int)

/-- The selection loop of `inPullReplication`: the `ScanCallback` body
appends `(keyA, keyB)` to `k` when the remaining bulk-set budget `l` is
positive, `replicationFilter` holds with the message's cutoff, and the
message's bloom filter does not report the key; the budget then shrinks by
`28 + length`. -/
def inPullSelectGo (cutoff tombstoneCutoff : Nat) :
    Int → List (Nat × Nat) → List Entry → List (Nat × Nat)
  | _, k, [] => k
  | l, k, e :: rest =>
    if 0 < l then
      if replicationFilter cutoff tombstoneCutoff e.tsb then
        if !e.mayHave then
          inPullSelectGo cutoff tombstoneCutoff (l - entryCost e) (k ++ [(e.keyA, e.keyB)]) rest
        else
          inPullSelectGo cutoff tombstoneCutoff l k rest
      else
        inPullSelectGo cutoff tombstoneCutoff l k rest
    else
      inPullSelectGo cutoff tombstoneCutoff l k rest

/-- The keys `inPullReplication` selects for the bulk-set response, given
the initial byte budget `l` and the entries presented by the range scan. -/
def inPullSelect (cutoff tombstoneCutoff : Nat) (l : Int) (entries : List Entry) :
    List (Nat × Nat) :=
  inPullSelectGo cutoff tombstoneCutoff l [] entries

/-- Modelled from the spec: the external ValueLocMap's seven-argument
`ScanCallback` (§4.1) presents exactly the in-range entries with
`tsb & notMask == 0` and `tsb < cutoff`; `outPushReplicationPass` calls it
with `mask = 0`, `notMask = _TSB_LOCAL_REMOVAL` and the replication
cutoff, so the callback sees exactly these entries. -/
def pushScanEntries (cutoff : Nat) (entries : List Entry) : List Entry :=
  entries.filter
    (fun e => e.tsb &&& TSB_LOCAL_REMOVAL == 0 && Nat.blt e.tsb cutoff)

/-- The gathering callback of `outPushReplicationPass`: an entry passing
the deletion/tombstone test is appended to `list`, the budget shrinks by
`_BULK_SET_MSG_ENTRY_HEADER_LENGTH + length` (28 + length), and the scan
stops once the remaining budget is below that entry's length. -/
def pushSelectGo (tombstoneCutoff : Nat) :
    Int → List (Nat × Nat) → List Entry → List (Nat × Nat)
  | _, list, [] => list
  | availableBytes, list, e :: rest =>
    if e.tsb &&& TSB_DELETION == 0 || Nat.ble tombstoneCutoff e.tsb then
      if availableBytes - entryCost e < entryCost e then list ++ [(e.keyA, e.keyB)]
      else pushSelectGo tombstoneCutoff (availableBytes - entryCost e) (list ++ [(e.keyA, e.keyB)]) rest
    else
      pushSelectGo tombstoneCutoff availableBytes list rest

/-- The keys gathered by one `outPushReplicationPass` worker's scan over
its sub-range: the VLM scan pre-filters on LOCAL_REMOVAL and the cutoff,
then the callback applies the deletion/tombstone test under the message
byte budget. -/
def pushSelect (cutoff tombstoneCutoff : Nat) (msgCap : Int) (entries : List Entry) :
    List (Nat × Nat) :=
  pushSelectGo tombstoneCutoff msgCap [] (pushScanEntries cutoff entries)

/-- The drain loop run by `newInPullReplicationMsg` (and, per the spec,
`newInBulkSetMsg`) when no pooled free message is acquired in time: read
into the 65536-byte `toss` buffer until at least `l` bytes were consumed
or the reader errors.  The reader is modelled as in the tests
(`bytes.Buffer`): with `avail` bytes remaining a read into a buffer of
size `s` yields `min s avail` bytes, and yields EOF exactly when
`avail = 0`.  Returns the reported byte count and whether an error (EOF)
was returned. -/
def drainGo (l : Nat) (n avail : Nat) : Nat × Bool :=
  if l ≤ n then (n, false)
  else if avail = 0 then (n, true)
  else drainGo l (n + min 65536 avail) (avail - min 65536 avail)
termination_by avail
decreasing_by
  have : 0 < min 65536 avail := by omega
  omega

/-- Drain `l` declared bytes from a reader holding `avail` bytes. -/
def drain (l avail : Nat) : Nat × Bool :=
  drainGo l 0 avail

/-- The read loop `for n != len(buf) { if err != nil return; sn, err =
r.Read(buf[n:]); n += sn }` against the modelled reader: returns the bytes
read into the buffer, whether the loop exited with an error, and the
reader's remaining bytes. -/
def readFull (need : Nat) (n avail : Nat) : Nat × Bool × Nat :=
  if need ≤ n then (n, false, avail)
  else if avail = 0 then (n, true, 0)
  else readFull need (n + min (need - n) avail) (avail - min (need - n) avail)
termination_by need - n
decreasing_by
  have : 0 < min (need - n) avail := by omega
  omega

/-- Result of an inbound frame handler: the byte count it returns, whether
it returned an error (EOF), and whether the message was enqueued on the
processing channel. -/
structure HandlerResult where
  bytesRead : Nat
  isEOF : Bool
  enqueued : Bool
deriving Repr, DecidableEq

/-- `pullReplicationMsgHeaderBytes` (pullreplication.go line 21). -/
def pullReplicationMsgHeaderBytes : Nat := 44

/-- `newInPullReplicationMsg(r, l)`: `acquired` models whether the select
obtained a pooled free message before the timeout; `kHdr` is
`ktBloomFilterHeaderBytes` (declared in a source file not provided); the
reader holds `avail` bytes.  On timeout the declared length is drained and
`(n, nil)` returned; otherwise the `kHdr + 44`-byte header buffer and the
`l - 44 - kHdr`-byte body are read, returning early with the count read
and EOF on a short read, and only a fully read message is enqueued. -/
def newInPullReplicationMsg (acquired : Bool) (kHdr l avail : Nat) : HandlerResult :=
  if !acquired then
    let r := drain l avail
    ⟨r.1, r.2, false⟩
  else
    let headerLen := kHdr + pullReplicationMsgHeaderBytes
    let bodyLen := l - pullReplicationMsgHeaderBytes - kHdr
    let h := readFull headerLen 0 avail
    if h.2.1 then ⟨h.1, true, false⟩
    else
      let b := readFull bodyLen 0 h.2.2
      if b.2.1 then ⟨headerLen + b.1, true, false⟩
      else ⟨l, false, true⟩

/-- `_BULK_SET_MSG_HEADER_LENGTH`: 8 bytes (responder node ID), per the
spec's bulk-set wire format and the byte dump in `TestBulkSetMsgOut`. -/
def BULK_SET_MSG_HEADER_LENGTH : Nat := 8

/-- Modelled from the spec: `newInBulkSetMsg` (bulkset.go is not among the
provided sources; only its tests are).  Per §4.4 and `TestBulkSetInTimeout`
/ `TestBulkSetRead` it mirrors `newInPullReplicationMsg` with an 8-byte
header and an `l - 8`-byte body; per `TestBulkSetReadObviouslyTooShort`, a
declared length shorter than the header is drained and returned without
error and without enqueueing. -/
def newInBulkSetMsg (acquired : Bool) (l avail : Nat) : HandlerResult :=
  if !acquired then
    let r := drain l avail
    ⟨r.1, r.2, false⟩
  else if l < BULK_SET_MSG_HEADER_LENGTH then
    let r := drain l avail
    ⟨r.1, r.2, false⟩
  else
    let bodyLen := l - BULK_SET_MSG_HEADER_LENGTH
    let h := readFull BULK_SET_MSG_HEADER_LENGTH 0 avail
    if h.2.1 then ⟨h.1, true, false⟩
    else
      let b := readFull bodyLen 0 h.2.2
      if b.2.1 then ⟨BULK_SET_MSG_HEADER_LENGTH + b.1, true, false⟩
      else ⟨l, false, true⟩

/-- Modelled from the spec: a store entry held by the value location map
(the VLM and the Write/Read path live in source files not provided; §3,
§4.1-§4.3 and the bulkset tests fix their behaviour). -/
structure StoreEntry where
  keyA : Nat
  keyB : Nat
  tsb : Nat
  value : String
deriving Repr, DecidableEq

/-- Modelled from the spec: `Write(keyA, keyB, tsb, value)` routes through
the VLM's monotonic `Set`: a write with `tsb` at most the stored
timestamp-bits is a no-op, a larger one replaces the entry (§3
invariants, §4.1). -/
def writeStore (s : List StoreEntry) (keyA keyB tsb : Nat) (value : String) :
    List StoreEntry :=
  match s.find? (fun e => e.keyA == keyA && e.keyB == keyB) with
  | none => s ++ [⟨keyA, keyB, tsb, value⟩]
  | some old =>
    if tsb ≤ old.tsb then s
    else
      s.map (fun e =>
        if e.keyA == keyA && e.keyB == keyB then ⟨keyA, keyB, tsb, value⟩ else e)

/-- Modelled from the spec: the public `Read(keyA, keyB)` (§4.3): absent
keys and entries carrying DELETION or LOCAL_REMOVAL read as not found;
a live entry returns its value and its timestamp with the low 8 utility
bits stripped (`TestBulkSetMsgWithoutAck`: "the bottom 8 bits are
discarded for the public Read"). -/
def readStore (s : List StoreEntry) (keyA keyB : Nat) : Option (Nat × String) :=
  match s.find? (fun e => e.keyA == keyA && e.keyB == keyB) with
  | none => none
  | some e =>
    if e.tsb &&& (TSB_DELETION ||| TSB_LOCAL_REMOVAL) != 0 then none
    else some (e.tsb >>> TSB_UTIL_BITS, e.value)

/-- `_GLH_BLOOM_FILTER_N` (pullreplication.go line 19). -/
def GLH_BLOOM_FILTER_N : Nat := 1000000

/-- The adaptive sub-range sizing of `outPullReplicationPass`:
`for vs.vlm.ScanCount(start, start+(pullSize-1), N) >= N { pullSize /= 2 }`,
with the external VLM's `ScanCount` abstracted as a function of the range
bounds. -/
def halvePullSize (scanCount : Nat → Nat → Nat) (bloomN start pullSize : Nat) : Nat :=
  if pullSize = 0 then 0
  else if bloomN ≤ scanCount start (start + (pullSize - 1)) then
    halvePullSize scanCount bloomN start (pullSize / 2)
  else pullSize
termination_by pullSize
decreasing_by omega

/-- The increment of the per-pass iteration salt at the top of
`outPullReplicationPass`: wrap to 0 from `math.MaxUint16`, otherwise add
one. -/
def outIterationNext (outIteration : Nat) : Nat :=
  if outIteration = 65535 then 0 else outIteration + 1

/-- The sub-range send loop of `outPullReplicationPass` (not aborted, ring
unchanged): each iteration resets the bloom filter with the pass's
`outIteration` salt, scans `[substart, substop]`, sends one
pull-replication message for it, advances both bounds by `pullSize`
(uint64 arithmetic), and breaks when the advanced `substop` differs from
`stop` in either direction.  Emits one `(salt, substart, substop)` triple
per message sent; `fuel` bounds the iteration count of the source's
unbounded `for`. -/
def sendSubrangesGo (salt stop pullSize : Nat) :
    Nat → Nat → Nat → List (Nat × Nat × Nat)
  | _, _, 0 => []
  | substart, substop, fuel + 1 =>
    (salt, substart, substop) ::
      (if Nat.blt stop ((substop + pullSize) % U64) || Nat.blt ((substop + pullSize) % U64) stop then
        []
      else
        sendSubrangesGo salt stop pullSize ((substart + pullSize) % U64) ((substop + pullSize) % U64) fuel)

/-- The sub-range messages one partition's pull-replication scan sends:
starts at `substart = start`, `substop = start + (pullSize - 1)`. -/
def sendSubranges (salt start stop pullSize fuel : Nat) : List (Nat × Nat × Nat) :=
  sendSubrangesGo salt stop pullSize start ((start + (pullSize - 1)) % U64) fuel

/-- One partition's full outgoing pull-replication scan: size the
sub-range by repeated halving from the full partition size, then run the
send loop.  `start = p << (64-partitionPower)`,
`stop = start + (2^(64-partitionPower) - 1)`. -/
def outPullPartitionMsgs (scanCount : Nat → Nat → Nat) (salt start stop partitionSize fuel : Nat) :
    List (Nat × Nat × Nat) :=
  sendSubranges salt start stop (halvePullSize scanCount GLH_BLOOM_FILTER_N start partitionSize) fuel

/-- The partition visit order of one `outPushReplicationPass` worker: the
loop starts at `partitionBegin`, increments, wraps past `partitionMax` to
0, and stops on returning to `partitionBegin`, so it visits each of the
`partitionMax + 1` partitions exactly once, in rotated order. -/
def pushPartitionCycle (partitionMax partitionBegin : Nat) : List Nat :=
  (List.range (partitionMax + 1)).map (fun i => (partitionBegin + i) % (partitionMax + 1))

/-- The partitions a push-replication worker actually works: the loop body
runs `work` exactly for the visited partitions with
`!ring.Responsible(partition)`. -/
def pushWorkedPartitions (responsible : Nat → Bool) (partitionMax partitionBegin : Nat) :
    List Nat :=
  (pushPartitionCycle partitionMax partitionBegin).filter (fun p => !responsible p)

/-- `workerPartitionPiece` in `outPushReplicationPass`:
`(uint64(1) << partitionShift) / (workerMax + 1)`. -/
def workerPartitionPiece (partitionShift workerMax : Nat) : Nat :=
  2 ^ partitionShift / (workerMax + 1)

/-- `rangeBegin` for a push-replication worker:
`(partition << partitionShift) + workerPartitionPiece * worker`. -/
def pushWorkerRangeBegin (partitionShift workerMax partition worker : Nat) : Nat :=
  (partition <<< partitionShift) + workerPartitionPiece partitionShift workerMax * worker

/-- `rangeEnd` for a push-replication worker, with the source's
special-casing of the last worker and the last partition to avoid uint64
overflow. -/
def pushWorkerRangeEnd (partitionShift partitionMax workerMax partition worker : Nat) : Nat :=
  if worker ≠ workerMax then
    (partition <<< partitionShift) + workerPartitionPiece partitionShift workerMax * (worker + 1) - 1
  else if partition ≠ partitionMax then
    ((partition + 1) <<< partitionShift) - 1
  else
    U64 - 1

/-- `binary.BigEndian.PutUint64`: the eight bytes of `v`, most significant
first. -/
def putUint64BE (v : Nat) : List Nat :=
  [v >>> 56 % 256, v >>> 48 % 256, v >>> 40 % 256, v >>> 32 % 256,
   v >>> 24 % 256, v >>> 16 % 256, v >>> 8 % 256, v % 256]

/-- `binary.BigEndian.PutUint32`: the four bytes of `v`, most significant
first. -/
def putUint32BE (v : Nat) : List Nat :=
  [v >>> 24 % 256, v >>> 16 % 256, v >>> 8 % 256, v % 256]

/-- `binary.BigEndian.Uint64(b[off:])`. -/
def getUint64BE (b : List Nat) (off : Nat) : Nat :=
  ((b.drop off).take 8).foldl (fun acc x => acc * 256 + x) 0

/-- `binary.BigEndian.Uint32(b[off:])`. -/
def getUint32BE (b : List Nat) (off : Nat) : Nat :=
  ((b.drop off).take 4).foldl (fun acc x => acc * 256 + x) 0

/-- The 44-byte pull-replication message header written by
`newOutPullReplicationMsg`: nodeID at 0, ringVersion (ringID) at 8,
partition at 16, cutoff at 20, rangeStart at 28, rangeStop at 36, all
big-endian. -/
def pullReplicationMsgHeader
    (nodeID ringID partition cutoff rangeStart rangeStop : Nat) : List Nat :=
  putUint64BE nodeID ++ putUint64BE ringID ++ putUint32BE partition ++
    putUint64BE cutoff ++ putUint64BE rangeStart ++ putUint64BE rangeStop

/-- Accessor `partition()`: `binary.BigEndian.Uint32(prm.header[16:])`. -/
def prmPartition (header : List Nat) : Nat := getUint32BE header 16

/-- Accessor `cutoff()`: `binary.BigEndian.Uint64(prm.header[20:])`. -/
def prmCutoff (header : List Nat) : Nat := getUint64BE header 20

/-- Accessor `rangeStart()`: `binary.BigEndian.Uint64(prm.header[28:])`. -/
def prmRangeStart (header : List Nat) : Nat := getUint64BE header 28

/-- Accessor `rangeStop()`: `binary.BigEndian.Uint64(prm.header[36:])`. -/
def prmRangeStop (header : List Nat) : Nat := getUint64BE header 36

/-- Accessor `nodeID()`: `binary.BigEndian.Uint64(prm.header)`. -/
def prmNodeID (header : List Nat) : Nat := getUint64BE header 0

/-- Accessor `ringID()`: `binary.BigEndian.Uint64(prm.header[8:])`. -/
def prmRingID (header : List Nat) : Nat := getUint64BE header 8

/-- Go `int64`/`int` wrap-around: reduce into `[-2^63, 2^63)`. -/
def wrap64 (x : Int) : Int :=
  (x + 2 ^ 63) % 2 ^ 64 - 2 ^ 63

/-- The `valueCap` clamp of `resolveConfig` (opts.go lines 394-399):
negative to 0, above `math.MaxUint32` to `math.MaxUint32`. -/
def resolveConfigValueCap (valueCap : Int) : Int :=
  if valueCap < 0 then 0
  else if 4294967295 < valueCap then 4294967295
  else valueCap

/-- The `checksumInterval` clamp of `resolveConfig` (opts.go lines
400-402): below 1 to 1. -/
def resolveConfigChecksumInterval (checksumInterval : Int) : Int :=
  if checksumInterval < 1 then 1 else checksumInterval

/-- opts.go lines 403-407: `if cfg.pageSize < cfg.valueCap +
cfg.checksumInterval` (a wrapping Go `int` sum) raise it to that sum. -/
def resolveConfigPageSizeFloorSum (v c p : Int) : Int :=
  if p < wrap64 (v + c) then wrap64 (v + c) else p

/-- opts.go lines 408-411: absolute minimum page size 40. -/
def resolveConfigPageSizeFloor40 (p : Int) : Int :=
  if p < 40 then 40 else p

/-- opts.go lines 412-416: cap the page size at `math.MaxUint32 - 1`. -/
def resolveConfigPageSizeCap (p : Int) : Int :=
  if 4294967294 < p then 4294967294 else p

/-- The `pageSize` resolution of `resolveConfig` (opts.go lines 394-416;
identically in the second `resolveConfig`): with `valueCap` and
`checksumInterval` already clamped, floor to their sum, floor to 40, then
cap to `math.MaxUint32 - 1`, in that order. -/
def resolveConfigPageSize (valueCap checksumInterval pageSize : Int) : Int :=
  resolveConfigPageSizeCap
    (resolveConfigPageSizeFloor40
      (resolveConfigPageSizeFloorSum (resolveConfigValueCap valueCap)
        (resolveConfigChecksumInterval checksumInterval) pageSize))

/-! Helper lemmas about the reader loops. -/

theorem drainGo_enough (l : Nat) : ∀ n avail : Nat, l ≤ n + avail →
    (drainGo l n avail).2 = false ∧ l ≤ (drainGo l n avail).1 ∧
      (drainGo l n avail).1 ≤ n + avail := by
  intro n avail
  induction n, avail using drainGo.induct l with
  | case1 n avail hln =>
    intro h
    rw [drainGo, if_pos hln]
    exact ⟨rfl, hln, Nat.le_add_right n avail⟩
  | case2 n hln =>
    intro h
    omega
  | case3 n avail hln hav ih =>
    intro h
    rw [drainGo, if_neg hln, if_neg hav]
    obtain ⟨h1, h2, h3⟩ := ih (by omega)
    exact ⟨h1, h2, by omega⟩

theorem drainGo_short (l : Nat) : ∀ n avail : Nat, n + avail < l →
    drainGo l n avail = (n + avail, true) := by
  intro n avail
  induction n, avail using drainGo.induct l with
  | case1 n avail hln =>
    intro h
    omega
  | case2 n hln =>
    intro h
    rw [drainGo, if_neg hln]
    simp
  | case3 n avail hln hav ih =>
    intro h
    rw [drainGo, if_neg hln, if_neg hav]
    rw [ih (by omega)]
    congr 1
    omega

theorem readFull_enough (need : Nat) : ∀ n avail : Nat, n ≤ need → need ≤ n + avail →
    readFull need n avail = (need, false, n + avail - need) := by
  intro n avail
  induction n, avail using readFull.induct need with
  | case1 n avail hn =>
    intro hn2 h
    rw [readFull, if_pos hn]
    have he : n = need := by omega
    subst he
    simp
  | case2 n hn =>
    intro hn2 h
    omega
  | case3 n avail hn hav ih =>
    intro hn2 h
    rw [readFull, if_neg hn, if_neg hav]
    rw [ih (by omega) (by omega)]
    have hx : n + min (need - n) avail + (avail - min (need - n) avail) = n + avail := by
      omega
    rw [hx]

theorem readFull_short (need : Nat) : ∀ n avail : Nat, n + avail < need →
    readFull need n avail = (n + avail, true, 0) := by
  intro n avail
  induction n, avail using readFull.induct need with
  | case1 n avail hn =>
    intro h
    omega
  | case2 n hn =>
    intro h
    rw [readFull, if_neg hn]
    simp
  | case3 n avail hn hav ih =>
    intro h
    rw [readFull, if_neg hn, if_neg hav]
    rw [ih (by omega)]
    congr 1
    omega

/-- C3, counterexample.  The claim says the timeout path returns exactly
`(l, nil)`; but the drain loop reads through a 65536-byte scratch buffer,
so a reader holding 2 bytes with declared length `l = 1` reports 2 bytes
read, not 1. -/
theorem claim_C3_counterexample :
    newInPullReplicationMsg false 12 1 2 = ⟨2, false, false⟩ ∧
      ¬(newInPullReplicationMsg false 12 1 2).bytesRead = 1 := by
  have h2 : drainGo 1 0 2 = (2, false) := by
    rw [drainGo]
    norm_num
    rw [drainGo]
    norm_num
  have he : newInPullReplicationMsg false 12 1 2 = ⟨2, false, false⟩ := by
    simp [newInPullReplicationMsg, drain, h2]
  refine ⟨he, ?_⟩
  rw [he]
  decide

/-- C3, amended: on a free-message timeout, each inbound handler drains
the reader in chunks of up to 65536 bytes, reading at least `l` bytes (at
most the reader's supply) and returning that count without error; when
the reader yields exactly `l` bytes the count is exactly `l`; no message
is enqueued. -/
theorem claim_C3_amended :
    (∀ kHdr l avail : Nat, l ≤ avail →
      l ≤ (newInPullReplicationMsg false kHdr l avail).bytesRead ∧
        (newInPullReplicationMsg false kHdr l avail).bytesRead ≤ avail ∧
        (newInPullReplicationMsg false kHdr l avail).isEOF = false ∧
        (newInPullReplicationMsg false kHdr l avail).enqueued = false) ∧
    (∀ kHdr l : Nat, newInPullReplicationMsg false kHdr l l = ⟨l, false, false⟩) ∧
    (∀ l avail : Nat, l ≤ avail →
      l ≤ (newInBulkSetMsg false l avail).bytesRead ∧
        (newInBulkSetMsg false l avail).bytesRead ≤ avail ∧
        (newInBulkSetMsg false l avail).isEOF = false ∧
        (newInBulkSetMsg false l avail).enqueued = false) ∧
    (∀ l : Nat, newInBulkSetMsg false l l = ⟨l, false, false⟩) := by
  have hpull : ∀ kHdr l avail : Nat,
      newInPullReplicationMsg false kHdr l avail = ⟨(drain l avail).1, (drain l avail).2, false⟩ := by
    intro kHdr l avail
    rfl
  have hbulk : ∀ l avail : Nat,
      newInBulkSetMsg false l avail = ⟨(drain l avail).1, (drain l avail).2, false⟩ := by
    intro l avail
    rfl
  have hd : ∀ l avail : Nat, l ≤ avail →
      (drain l avail).2 = false ∧ l ≤ (drain l avail).1 ∧ (drain l avail).1 ≤ avail := by
    intro l avail h
    simpa [drain] using drainGo_enough l 0 avail (by omega)
  have hdx : ∀ l : Nat, drain l l = (l, false) := by
    intro l
    have h := hd l l (le_refl l)
    have : (drain l l).1 = l := by omega
    cases hdrain : drain l l
    simp_all
  refine ⟨?_, ?_, ?_, ?_⟩
  · intro kHdr l avail h
    rw [hpull]
    have := hd l avail h
    simp_all
  · intro kHdr l
    rw [hpull, hdx]
  · intro l avail h
    rw [hbulk]
    have := hd l avail h
    simp_all
  · intro l
    rw [hbulk, hdx]

/-- C3, witness for the amended theorem. -/
theorem claim_C3_amended_witness :
    (5 ≤ (newInPullReplicationMsg false 12 5 7).bytesRead ∧
      (newInPullReplicationMsg false 12 5 7).bytesRead ≤ 7 ∧
      (newInPullReplicationMsg false 12 5 7).isEOF = false ∧
      (newInPullReplicationMsg false 12 5 7).enqueued = false) ∧
    newInBulkSetMsg false 9 9 = ⟨9, false, false⟩ :=
  ⟨claim_C3_amended.1 12 5 7 (by decide), claim_C3_amended.2.2.2 9⟩

/-- C4: an inbound handler given a reader that yields fewer than the
declared `l` bytes (truncated header or truncated body) returns the byte
count it actually read together with EOF, and does not enqueue the
message.  (For the pull handler `l` must at least cover the fixed header;
the bulk-set handler's analogous bound is its 8-byte header.) -/
theorem claim_C4_truncated_read_eof :
    (∀ kHdr l avail : Nat, pullReplicationMsgHeaderBytes + kHdr ≤ l → avail < l →
      newInPullReplicationMsg true kHdr l avail = ⟨avail, true, false⟩) ∧
    (∀ l avail : Nat, BULK_SET_MSG_HEADER_LENGTH ≤ l → avail < l →
      newInBulkSetMsg true l avail = ⟨avail, true, false⟩) := by
  have hdrb : pullReplicationMsgHeaderBytes = 44 := rfl
  have hbsb : BULK_SET_MSG_HEADER_LENGTH = 8 := rfl
  constructor
  · intro kHdr l avail hl hav
    rw [hdrb] at hl
    rw [newInPullReplicationMsg]
    simp only [Bool.not_false, if_true, hdrb]
    rcases Nat.lt_or_ge avail (kHdr + 44) with hsh | hsh
    · rw [readFull_short _ _ _ (by omega)]
      simp
    · rw [readFull_enough _ _ _ (by omega) (by omega)]
      norm_num
      rw [readFull_short _ _ _ (by omega)]
      norm_num
      omega
  · intro l avail hl hav
    rw [hbsb] at hl
    rw [newInBulkSetMsg]
    simp only [Bool.not_false, if_true, hbsb]
    have hnl : ¬l < 8 := by omega
    rw [if_neg hnl]
    rcases Nat.lt_or_ge avail 8 with hsh | hsh
    · rw [readFull_short 8 0 avail (by omega)]
      simp
    · rw [readFull_enough 8 0 avail (by omega) (by omega)]
      norm_num
      rw [readFull_short (l - 8) 0 (avail - 8) (by omega)]
      norm_num
      omega

/-- C4, witness. -/
theorem claim_C4_witness :
    newInPullReplicationMsg true 12 100 10 = ⟨10, true, false⟩ ∧
      newInBulkSetMsg true 100 7 = ⟨7, true, false⟩ :=
  ⟨claim_C4_truncated_read_eof.1 12 100 10 (by decide) (by decide),
    claim_C4_truncated_read_eof.2 100 7 (by decide) (by decide)⟩

/-- C5: after a write of key (1, 2) with timestamp-bits 0x300 and value
"testing", the public Read returns timestamp 3 (the low 8 utility bits
stripped) and the value "testing". -/
theorem claim_C5_read_strips_util_bits :
    readStore (writeStore [] 1 2 0x300 "testing") 1 2 = some (3, "testing") := by
  rfl

theorem sendSubrangesGo_salt (salt stop pullSize : Nat) :
    ∀ fuel substart substop s a b : Nat,
      (s, a, b) ∈ sendSubrangesGo salt stop pullSize substart substop fuel → s = salt := by
  intro fuel
  induction fuel with
  | zero =>
    intro substart substop s a b h
    simp [sendSubrangesGo] at h
  | succ n ih =>
    intro substart substop s a b h
    rw [sendSubrangesGo] at h
    rcases List.mem_cons.1 h with h1 | h2
    · exact congrArg (fun t => t.1) h1
    · split at h2
      · simp at h2
      · exact ih _ _ s a b h2

/-- C8: the iteration salt advances by exactly one modulo 2^16 at the top
of each outgoing pull-replication pass, and every bloom-filter reset of
the pass's sub-range loop uses that single advanced salt value. -/
theorem claim_C8_iteration_salt :
    (∀ v : Nat, v < 65536 → outIterationNext v = (v + 1) % 65536) ∧
    (∀ v start stop pullSize fuel s a b : Nat,
      (s, a, b) ∈ sendSubranges (outIterationNext v) start stop pullSize fuel →
      s = outIterationNext v) := by
  constructor
  · intro v hv
    unfold outIterationNext
    by_cases h : v = 65535
    · simp [h]
    · rw [if_neg h, Nat.mod_eq_of_lt (by omega)]
  · intro v start stop pullSize fuel s a b h
    exact sendSubrangesGo_salt _ _ _ _ _ _ _ _ _ h

/-- C8, witness: from 65535 the salt wraps to 0 = 65536 % 65536. -/
theorem claim_C8_witness :
    outIterationNext 65535 = (65535 + 1) % 65536 :=
  claim_C8_iteration_salt.1 65535 (by decide)

/-- C9, counterexample.  The claim's lower bound `pageSize ≥ valueCap +
checksumInterval` fails when that sum exceeds the `2^32 - 2` page cap,
which is applied last: with valueCap 4194304 (the default) and
checksumInterval 2^32 the resolved pageSize is 2^32 - 2, strictly below
the sum. -/
theorem claim_C9_counterexample :
    resolveConfigPageSize 4194304 4294967296 4194304 = 4294967294 ∧
      resolveConfigValueCap 4194304 + resolveConfigChecksumInterval 4294967296 = 4299161600 ∧
      (4294967294 : Int) < 4299161600 := by
  refine ⟨?_, ?_, by norm_num⟩
  · norm_num [resolveConfigPageSize, resolveConfigPageSizeFloorSum, resolveConfigPageSizeFloor40,
      resolveConfigPageSizeCap, resolveConfigValueCap, resolveConfigChecksumInterval, wrap64]
  · norm_num [resolveConfigValueCap, resolveConfigChecksumInterval]

/-- C9, amended: after resolution the pageSize is at most 2^32 - 2, and
at least the minimum of (clamped) valueCap + checksumInterval and
2^32 - 2; the hypothesis keeps the Go `int` sum from overflowing, as the
source implicitly assumes. -/
theorem claim_C9_amended :
    ∀ valueCap checksumInterval pageSize : Int,
      resolveConfigValueCap valueCap + resolveConfigChecksumInterval checksumInterval < 2 ^ 63 →
      resolveConfigPageSize valueCap checksumInterval pageSize ≤ 4294967294 ∧
        min (resolveConfigValueCap valueCap + resolveConfigChecksumInterval checksumInterval) 4294967294 ≤
          resolveConfigPageSize valueCap checksumInterval pageSize := by
  intro v c p h
  unfold resolveConfigPageSize resolveConfigPageSizeFloorSum resolveConfigPageSizeFloor40
    resolveConfigPageSizeCap wrap64 at *
  unfold resolveConfigValueCap resolveConfigChecksumInterval at *
  split_ifs at h ⊢ <;> omega

/-- C9, witness for the amended theorem. -/
theorem claim_C9_amended_witness :
    resolveConfigPageSize 0 1 0 ≤ 4294967294 ∧
      min (resolveConfigValueCap 0 + resolveConfigChecksumInterval 1) 4294967294 ≤
        resolveConfigPageSize 0 1 0 :=
  claim_C9_amended 0 1 0 (by decide)

/-- C2: the code violates the claim's coverage property.  Take
partitionPower 61 (partition keyA-top range [0, 7], initial pull size 8)
and a VLM holding 500000 entries per keyA slot, so `ScanCount` forces
three halvings down to pull size 1.  The send loop then emits only the
single sub-range [0, 0] - its continue condition demands the advanced
`substop` equal `stop` exactly - so keyA top 3 (indeed all of [1, 7]) is
in the partition's range but in no sub-range sent, and the pass's
sub-ranges do not cover the partition.  (The halving itself behaves as
claimed: the loop halves exactly while `ScanCount ≥ bloomN`.) -/
theorem claim_C2_subrange_coverage_bug :
    halvePullSize (fun a b => (b + 1 - a) * 500000) GLH_BLOOM_FILTER_N 0 8 = 1 ∧
      outPullPartitionMsgs (fun a b => (b + 1 - a) * 500000) 7 0 7 8 10 = [(7, 0, 0)] ∧
      (∀ r ∈ outPullPartitionMsgs (fun a b => (b + 1 - a) * 500000) 7 0 7 8 10,
        ¬(r.2.1 ≤ 3 ∧ 3 ≤ r.2.2)) ∧
      (0 : Nat) ≤ 3 ∧ 3 ≤ 7 := by
  have hh : halvePullSize (fun a b => (b + 1 - a) * 500000) GLH_BLOOM_FILTER_N 0 8 = 1 := by
    rw [halvePullSize]
    norm_num [GLH_BLOOM_FILTER_N]
    rw [halvePullSize]
    norm_num
    rw [halvePullSize]
    norm_num
    rw [halvePullSize]
    norm_num
  have hm : outPullPartitionMsgs (fun a b => (b + 1 - a) * 500000) 7 0 7 8 10 = [(7, 0, 0)] := by
    rw [outPullPartitionMsgs, hh]
    decide
  refine ⟨hh, hm, ?_, by decide, by decide⟩
  rw [hm]
  decide

theorem entryCost_nonneg (e : Entry) : 0 ≤ entryCost e := by
  unfold entryCost
  positivity

theorem entryCost_sum_nonneg (es : List Entry) : 0 ≤ (es.map entryCost).sum := by
  apply List.sum_nonneg
  intro x hx
  rcases List.mem_map.1 hx with ⟨e, _, he⟩
  exact he ▸ entryCost_nonneg e

theorem outPullBloomAdds_foldl (cutoff tc : Nat) :
    ∀ (entries : List Entry) (acc : List Entry),
      entries.foldl
          (fun ktbf e => if replicationFilter cutoff tc e.tsb then ktbf ++ [e] else ktbf) acc =
        acc ++ entries.filter (fun e => replicationFilter cutoff tc e.tsb) := by
  intro entries
  induction entries with
  | nil =>
    intro acc
    simp
  | cons e rest ih =>
    intro acc
    simp only [List.foldl_cons, List.filter_cons]
    by_cases h : replicationFilter cutoff tc e.tsb = true
    · rw [if_pos h, ih, h]
      simp
    · rw [if_neg h, ih]
      simp [h]

theorem inPullSelectGo_spec (cutoff tc : Nat) :
    ∀ (entries : List Entry) (l : Int) (k : List (Nat × Nat)),
      (entries.map entryCost).sum < l →
      inPullSelectGo cutoff tc l k entries =
        k ++ (entries.filter (fun e => replicationFilter cutoff tc e.tsb && !e.mayHave)).map
          (fun e => (e.keyA, e.keyB)) := by
  intro entries
  induction entries with
  | nil =>
    intro l k h
    simp [inPullSelectGo]
  | cons e rest ih =>
    intro l k h
    have hc := entryCost_nonneg e
    have hs := entryCost_sum_nonneg rest
    simp only [List.map_cons, List.sum_cons] at h
    rw [inPullSelectGo, if_pos (by omega : (0:Int) < l)]
    by_cases hf : replicationFilter cutoff tc e.tsb = true
    · rw [if_pos hf]
      by_cases hm : e.mayHave = true
      · rw [if_neg (by simp [hm])]
        rw [ih l k (by omega)]
        simp [List.filter_cons, hf, hm]
      · rw [if_pos (by simp [Bool.not_eq_true] at hm; simp [hm])]
        rw [ih (l - entryCost e) (k ++ [(e.keyA, e.keyB)]) (by omega)]
        simp only [Bool.not_eq_true] at hm
        simp [List.filter_cons, hf, hm]
    · rw [if_neg hf]
      rw [ih l k (by omega)]
      simp [List.filter_cons, hf]

theorem pushSelectGo_spec (tc : Nat) :
    ∀ (entries : List Entry) (avail : Int) (list : List (Nat × Nat)),
      2 * (entries.map entryCost).sum ≤ avail →
      pushSelectGo tc avail list entries =
        list ++ (entries.filter
            (fun e => e.tsb &&& TSB_DELETION == 0 || Nat.ble tc e.tsb)).map
          (fun e => (e.keyA, e.keyB)) := by
  intro entries
  induction entries with
  | nil =>
    intro avail list h
    simp [pushSelectGo]
  | cons e rest ih =>
    intro avail list h
    have hc := entryCost_nonneg e
    have hs := entryCost_sum_nonneg rest
    simp only [List.map_cons, List.sum_cons] at h
    rw [pushSelectGo]
    by_cases hd : (e.tsb &&& TSB_DELETION == 0 || Nat.ble tc e.tsb) = true
    · rw [if_pos hd, if_neg (by omega : ¬avail - entryCost e < entryCost e)]
      rw [ih (avail - entryCost e) (list ++ [(e.keyA, e.keyB)]) (by omega)]
      simp [List.filter_cons, hd]
    · rw [if_neg hd]
      rw [ih avail list (by omega)]
      simp [List.filter_cons, hd]

/-- C1, counterexample.  The claim's "if and only if" fails for the
inbound pull-replication handler: the entry (1, 2) with tsb 4 satisfies
all three stated conditions (LOCAL_REMOVAL clear, tsb 4 < cutoff 10,
DELETION clear), yet when the message's bloom filter reports the key as
possibly present the handler does not select it. -/
theorem claim_C1_counterexample :
    replicationFilter 10 0 4 = true ∧
      inPullSelect 10 0 1000 [⟨1, 2, 4, 0, true⟩] = [] := by
  decide

/-- C1, amended: the three per-entry conditions characterize inclusion
exactly for the outgoing bloom population; for the inbound handler an
entry is selected only if additionally the message's bloom filter does
not report it (exactly so while the response byte budget lasts); for the
push-replication gathering the conditions characterize selection while
the bulk-set byte budget lasts.  The last conjunct restates the shared
filter in the claim's terms. -/
theorem claim_C1_replication_filters :
    (∀ (cutoff tc : Nat) (entries : List Entry),
      outPullBloomAdds cutoff tc entries =
        entries.filter (fun e => replicationFilter cutoff tc e.tsb)) ∧
    (∀ (cutoff tc : Nat) (l : Int) (entries : List Entry),
      (entries.map entryCost).sum < l →
      inPullSelect cutoff tc l entries =
        (entries.filter (fun e => replicationFilter cutoff tc e.tsb && !e.mayHave)).map
          (fun e => (e.keyA, e.keyB))) ∧
    (∀ (cutoff tc : Nat) (msgCap : Int) (entries : List Entry),
      2 * ((pushScanEntries cutoff entries).map entryCost).sum ≤ msgCap →
      pushSelect cutoff tc msgCap entries =
        ((pushScanEntries cutoff entries).filter
            (fun e => e.tsb &&& TSB_DELETION == 0 || Nat.ble tc e.tsb)).map
          (fun e => (e.keyA, e.keyB))) ∧
    (∀ cutoff tc tsb : Nat, replicationFilter cutoff tc tsb = true ↔
      (tsb &&& TSB_LOCAL_REMOVAL = 0 ∧ tsb < cutoff ∧
        (tsb &&& TSB_DELETION = 0 ∨ tc ≤ tsb))) := by
  refine ⟨?_, ?_, ?_, ?_⟩
  · intro cutoff tc entries
    exact outPullBloomAdds_foldl cutoff tc entries []
  · intro cutoff tc l entries h
    exact inPullSelectGo_spec cutoff tc entries l [] h
  · intro cutoff tc msgCap entries h
    exact pushSelectGo_spec tc (pushScanEntries cutoff entries) msgCap [] h
  · intro cutoff tc tsb
    simp [replicationFilter, Nat.blt_eq, Nat.ble_eq, beq_iff_eq, and_assoc]

/-- C1, witness for the amended theorem. -/
theorem claim_C1_witness :
    inPullSelect 10 0 1000 [⟨1, 2, 4, 0, false⟩] =
      (([⟨1, 2, 4, 0, false⟩] : List Entry).filter
          (fun e => replicationFilter 10 0 e.tsb && !e.mayHave)).map
        (fun e => (e.keyA, e.keyB)) :=
  claim_C1_replication_filters.2.1 10 0 1000 [⟨1, 2, 4, 0, false⟩] (by decide)

theorem mem_pushPartitionCycle (partitionMax partitionBegin p : Nat)
    (hb : partitionBegin ≤ partitionMax) :
    p ∈ pushPartitionCycle partitionMax partitionBegin ↔ p ≤ partitionMax := by
  unfold pushPartitionCycle
  constructor
  · intro h
    rcases List.mem_map.1 h with ⟨i, _, he⟩
    have := Nat.mod_lt (partitionBegin + i) (show 0 < partitionMax + 1 by omega)
    omega
  · intro hp
    refine List.mem_map.2
      ⟨(p + (partitionMax + 1) - partitionBegin) % (partitionMax + 1),
        List.mem_range.2 (Nat.mod_lt _ (by omega)), ?_⟩
    rw [Nat.add_mod_mod]
    have hx : partitionBegin + (p + (partitionMax + 1) - partitionBegin) =
        p + (partitionMax + 1) := by
      omega
    rw [hx, Nat.add_mod_right, Nat.mod_eq_of_lt (by omega)]

/-- C6: a push-replication worker's partition loop works exactly the
partitions the ring does not report the local node responsible for; and
keys whose timestamp-bits carry LOCAL_REMOVAL are excluded from the
outgoing bulk-set at both stages - the gathering scan (whose `notMask`
skips them) and the per-key re-check before `bsm.add` (which reuses the
replication filter). -/
theorem claim_C6_push_responsibility :
    (∀ (responsible : Nat → Bool) (partitionMax partitionBegin p : Nat),
      partitionBegin ≤ partitionMax →
      (p ∈ pushWorkedPartitions responsible partitionMax partitionBegin ↔
        p ≤ partitionMax ∧ responsible p = false)) ∧
    (∀ (cutoff : Nat) (entries : List Entry) (e : Entry),
      e.tsb &&& TSB_LOCAL_REMOVAL ≠ 0 → e ∉ pushScanEntries cutoff entries) ∧
    (∀ cutoff tc tsb : Nat, tsb &&& TSB_LOCAL_REMOVAL ≠ 0 →
      replicationFilter cutoff tc tsb = false) := by
  refine ⟨?_, ?_, ?_⟩
  · intro responsible partitionMax partitionBegin p hb
    unfold pushWorkedPartitions
    rw [List.mem_filter, mem_pushPartitionCycle partitionMax partitionBegin p hb]
    simp
  · intro cutoff entries e hnz h
    rcases List.mem_filter.1 h with ⟨_, hpred⟩
    simp only [Bool.and_eq_true, beq_iff_eq] at hpred
    exact hnz hpred.1
  · intro cutoff tc tsb hnz
    have hb : (tsb &&& TSB_LOCAL_REMOVAL == 0) = false := by
      simpa using hnz
    simp [replicationFilter, hb]

/-- C6, witness. -/
theorem claim_C6_witness :
    1 ∈ pushWorkedPartitions (fun p => p % 2 == 0) 3 2 ↔
      1 ≤ 3 ∧ (fun p : Nat => p % 2 == 0) 1 = false :=
  claim_C6_push_responsibility.1 (fun p => p % 2 == 0) 3 2 1 (by decide)

/-- C7: the pull-replication message header is exactly 44 bytes, laid out
big-endian as nodeID:8, ringVersion:8, partition:4, cutoff:8,
rangeStart:8, rangeStop:8, and the accessors recover exactly the arguments
given to `newOutPullReplicationMsg`. -/
theorem claim_C7_header_roundtrip :
    ∀ nodeID ringID partition cutoff rangeStart rangeStop : Nat,
      nodeID < U64 → ringID < U64 → partition < 4294967296 → cutoff < U64 →
      rangeStart < U64 → rangeStop < U64 →
      pullReplicationMsgHeaderBytes = 44 ∧
      (pullReplicationMsgHeader nodeID ringID partition cutoff rangeStart rangeStop).length =
        pullReplicationMsgHeaderBytes ∧
      prmNodeID (pullReplicationMsgHeader nodeID ringID partition cutoff rangeStart rangeStop) =
        nodeID ∧
      prmRingID (pullReplicationMsgHeader nodeID ringID partition cutoff rangeStart rangeStop) =
        ringID ∧
      prmPartition (pullReplicationMsgHeader nodeID ringID partition cutoff rangeStart rangeStop) =
        partition ∧
      prmCutoff (pullReplicationMsgHeader nodeID ringID partition cutoff rangeStart rangeStop) =
        cutoff ∧
      prmRangeStart (pullReplicationMsgHeader nodeID ringID partition cutoff rangeStart rangeStop) =
        rangeStart ∧
      prmRangeStop (pullReplicationMsgHeader nodeID ringID partition cutoff rangeStart rangeStop) =
        rangeStop := by
  intro nodeID ringID partition cutoff rangeStart rangeStop h1 h2 h3 h4 h5 h6
  unfold U64 at h1 h2 h4 h5 h6
  refine ⟨rfl, by rfl, ?_, ?_, ?_, ?_, ?_, ?_⟩
  · simp only [prmNodeID, getUint64BE, pullReplicationMsgHeader, putUint64BE, putUint32BE,
      List.cons_append, List.nil_append]
    norm_num [List.drop, List.take, List.foldl]
    omega
  · simp only [prmRingID, getUint64BE, pullReplicationMsgHeader, putUint64BE, putUint32BE,
      List.cons_append, List.nil_append]
    norm_num [List.drop, List.take, List.foldl]
    omega
  · simp only [prmPartition, getUint32BE, pullReplicationMsgHeader, putUint64BE, putUint32BE,
      List.cons_append, List.nil_append]
    norm_num [List.drop, List.take, List.foldl]
    omega
  · simp only [prmCutoff, getUint64BE, pullReplicationMsgHeader, putUint64BE, putUint32BE,
      List.cons_append, List.nil_append]
    norm_num [List.drop, List.take, List.foldl]
    omega
  · simp only [prmRangeStart, getUint64BE, pullReplicationMsgHeader, putUint64BE, putUint32BE,
      List.cons_append, List.nil_append]
    norm_num [List.drop, List.take, List.foldl]
    omega
  · simp only [prmRangeStop, getUint64BE, pullReplicationMsgHeader, putUint64BE, putUint32BE,
      List.cons_append, List.nil_append]
    norm_num [List.drop, List.take, List.foldl]
    omega

/-- C7, witness. -/
theorem claim_C7_witness :
    pullReplicationMsgHeaderBytes = 44 ∧
      (pullReplicationMsgHeader 5 6 7 8 9 10).length = pullReplicationMsgHeaderBytes ∧
      prmNodeID (pullReplicationMsgHeader 5 6 7 8 9 10) = 5 ∧
      prmRingID (pullReplicationMsgHeader 5 6 7 8 9 10) = 6 ∧
      prmPartition (pullReplicationMsgHeader 5 6 7 8 9 10) = 7 ∧
      prmCutoff (pullReplicationMsgHeader 5 6 7 8 9 10) = 8 ∧
      prmRangeStart (pullReplicationMsgHeader 5 6 7 8 9 10) = 9 ∧
      prmRangeStop (pullReplicationMsgHeader 5 6 7 8 9 10) = 10 :=
  claim_C7_header_roundtrip 5 6 7 8 9 10 (by decide) (by decide) (by decide) (by decide)
    (by decide) (by decide)

theorem rangeEnd_uniform (pbc W p w : Nat) (h1 : 1 ≤ pbc) (h2 : pbc ≤ 64)
    (hp : p ≤ 2 ^ pbc - 1) :
    pushWorkerRangeEnd (64 - pbc) (2 ^ pbc - 1) (W - 1) p w =
      if w = W - 1 then p * 2 ^ (64 - pbc) + 2 ^ (64 - pbc) - 1
      else p * 2 ^ (64 - pbc) + workerPartitionPiece (64 - pbc) (W - 1) * (w + 1) - 1 := by
  have hU : U64 = 2 ^ 64 := by norm_num [U64]
  have hpow : 2 ^ pbc * 2 ^ (64 - pbc) = 2 ^ 64 := by
    rw [← pow_add]
    congr 1
    omega
  unfold pushWorkerRangeEnd
  by_cases hw : w = W - 1
  · rw [if_neg (by simpa using hw), if_pos hw]
    by_cases hpm : p = 2 ^ pbc - 1
    · rw [if_neg (by simpa using hpm)]
      subst hpm
      have h3 : (2 ^ pbc - 1) * 2 ^ (64 - pbc) + 2 ^ (64 - pbc) =
          (2 ^ pbc - 1 + 1) * 2 ^ (64 - pbc) := by ring
      have h4 : 2 ^ pbc - 1 + 1 = 2 ^ pbc := by
        have := Nat.one_le_two_pow (n := pbc)
        omega
      rw [h4] at h3
      omega
    · rw [if_pos hpm, Nat.shiftLeft_eq]
      have h3 : (p + 1) * 2 ^ (64 - pbc) = p * 2 ^ (64 - pbc) + 2 ^ (64 - pbc) := by ring
      omega
  · rw [if_pos hw, if_neg hw, Nat.shiftLeft_eq]

theorem pushCover_arith (S W piece p : Nat) (hW : 1 ≤ W) (hpiece1 : 1 ≤ piece)
    (hpW : piece * W ≤ S) (x : Nat) :
    (p * S ≤ x ∧ x ≤ p * S + S - 1) ↔
      ∃ w, w ≤ W - 1 ∧ p * S + piece * w ≤ x ∧
        x ≤ (if w = W - 1 then p * S + S - 1 else p * S + piece * (w + 1) - 1) := by
  have hS1 : 1 ≤ S := by
    have := Nat.mul_le_mul hpiece1 hW
    omega
  constructor
  · rintro ⟨hx1, hx2⟩
    have hd : x - p * S < S := by omega
    by_cases hq : (x - p * S) / piece < W - 1
    · refine ⟨(x - p * S) / piece, by omega, ?_, ?_⟩
      · have h1 := Nat.div_mul_le_self (x - p * S) piece
        rw [Nat.mul_comm ((x - p * S) / piece) piece] at h1
        omega
      · rw [if_neg (by omega)]
        have hdm := Nat.div_add_mod (x - p * S) piece
        have hmod := Nat.mod_lt (x - p * S) (show 0 < piece by omega)
        have hms : piece * ((x - p * S) / piece + 1) = piece * ((x - p * S) / piece) + piece := by
          ring
        omega
    · refine ⟨W - 1, le_refl _, ?_, ?_⟩
      · have h1 := Nat.div_mul_le_self (x - p * S) piece
        rw [Nat.mul_comm ((x - p * S) / piece) piece] at h1
        have h2 : piece * (W - 1) ≤ piece * ((x - p * S) / piece) :=
          Nat.mul_le_mul_left piece (by omega)
        omega
      · rw [if_pos rfl]
        omega
  · rintro ⟨w, hw, hbx, hex⟩
    by_cases hwm : w = W - 1
    · rw [if_pos hwm] at hex
      exact ⟨by omega, by omega⟩
    · rw [if_neg hwm] at hex
      have h1 : piece * (w + 1) ≤ piece * W := Nat.mul_le_mul_left piece (by omega)
      have h2 : piece * (w + 1) = piece * w + piece := by ring
      exact ⟨by omega, by omega⟩

theorem pushDisjoint_arith (S W piece p : Nat) (hpiece1 : 1 ≤ piece) :
    ∀ w w' x : Nat, w ≤ W - 1 → w' ≤ W - 1 → w < w' →
      p * S + piece * w ≤ x →
      x ≤ (if w = W - 1 then p * S + S - 1 else p * S + piece * (w + 1) - 1) →
      p * S + piece * w' ≤ x → False := by
  intro w w' x hw hw' hlt hb he hb'
  rw [if_neg (by omega : ¬w = W - 1)] at he
  have h1 : piece * (w + 1) ≤ piece * w' := Nat.mul_le_mul_left piece (by omega)
  have h2 : piece * (w + 1) = piece * w + piece := by ring
  omega

/-- C10: with `1 ≤ W ≤ 2^partitionShift` push-replication workers, the
per-worker keyA sub-ranges `[rangeBegin, rangeEnd]` of a partition `p`
tile the partition exactly: they cover precisely
`[p << partitionShift, ((p+1) << partitionShift) - 1]`, they are pairwise
disjoint, the last worker of the last partition ends at 2^64 - 1, and
every computed bound is a well-formed uint64 (no overflow). -/
theorem claim_C10_push_worker_ranges :
    ∀ pbc W p : Nat, 1 ≤ pbc → pbc ≤ 64 → 1 ≤ W → W ≤ 2 ^ (64 - pbc) →
      p ≤ 2 ^ pbc - 1 →
      ((∀ x, (p <<< (64 - pbc) ≤ x ∧ x ≤ (p + 1) <<< (64 - pbc) - 1) ↔
          ∃ w, w ≤ W - 1 ∧ pushWorkerRangeBegin (64 - pbc) (W - 1) p w ≤ x ∧
            x ≤ pushWorkerRangeEnd (64 - pbc) (2 ^ pbc - 1) (W - 1) p w) ∧
        (∀ w w' x, w ≤ W - 1 → w' ≤ W - 1 → w ≠ w' →
          pushWorkerRangeBegin (64 - pbc) (W - 1) p w ≤ x →
          x ≤ pushWorkerRangeEnd (64 - pbc) (2 ^ pbc - 1) (W - 1) p w →
          ¬(pushWorkerRangeBegin (64 - pbc) (W - 1) p w' ≤ x ∧
            x ≤ pushWorkerRangeEnd (64 - pbc) (2 ^ pbc - 1) (W - 1) p w')) ∧
        pushWorkerRangeEnd (64 - pbc) (2 ^ pbc - 1) (W - 1) (2 ^ pbc - 1) (W - 1) =
          U64 - 1 ∧
        (∀ w, w ≤ W - 1 →
          pushWorkerRangeBegin (64 - pbc) (W - 1) p w ≤
            pushWorkerRangeEnd (64 - pbc) (2 ^ pbc - 1) (W - 1) p w ∧
          pushWorkerRangeEnd (64 - pbc) (2 ^ pbc - 1) (W - 1) p w < U64)) := by
  intro pbc W p h1 h2 h3 h4 hp
  have hU : U64 = 2 ^ 64 := by norm_num [U64]
  have hpow : 2 ^ pbc * 2 ^ (64 - pbc) = 2 ^ 64 := by
    rw [← pow_add]
    congr 1
    omega
  have h2pbc : 1 ≤ 2 ^ pbc := Nat.one_le_two_pow
  have hwpp : workerPartitionPiece (64 - pbc) (W - 1) = 2 ^ (64 - pbc) / W := by
    unfold workerPartitionPiece
    congr 1
    omega
  have hpiece1 : 1 ≤ workerPartitionPiece (64 - pbc) (W - 1) := by
    rw [hwpp]
    exact (Nat.one_le_div_iff (by omega)).2 h4
  have hpW : workerPartitionPiece (64 - pbc) (W - 1) * W ≤ 2 ^ (64 - pbc) := by
    rw [hwpp]
    exact Nat.div_mul_le_self (2 ^ (64 - pbc)) W
  have hB : ∀ w, pushWorkerRangeBegin (64 - pbc) (W - 1) p w =
      p * 2 ^ (64 - pbc) + workerPartitionPiece (64 - pbc) (W - 1) * w := by
    intro w
    unfold pushWorkerRangeBegin
    rw [Nat.shiftLeft_eq]
  have hE : ∀ w, pushWorkerRangeEnd (64 - pbc) (2 ^ pbc - 1) (W - 1) p w =
      if w = W - 1 then p * 2 ^ (64 - pbc) + 2 ^ (64 - pbc) - 1
      else p * 2 ^ (64 - pbc) + workerPartitionPiece (64 - pbc) (W - 1) * (w + 1) - 1 :=
    fun w => rangeEnd_uniform pbc W p w h1 h2 hp
  have hsum : (p + 1) * 2 ^ (64 - pbc) = p * 2 ^ (64 - pbc) + 2 ^ (64 - pbc) := by ring
  have hbound : (p + 1) * 2 ^ (64 - pbc) ≤ 2 ^ pbc * 2 ^ (64 - pbc) :=
    Nat.mul_le_mul_right (2 ^ (64 - pbc)) (by omega)
  refine ⟨?_, ?_, ?_, ?_⟩
  · intro x
    simp only [Nat.shiftLeft_eq, hB, hE]
    rw [hsum]
    exact pushCover_arith (2 ^ (64 - pbc)) W (workerPartitionPiece (64 - pbc) (W - 1)) p h3
      hpiece1 hpW x
  · intro w w' x hw hw' hne hbw hew
    rintro ⟨hbw', hew'⟩
    rcases Nat.lt_or_ge w w' with hlt | hge
    · rw [hB] at hbw hbw'
      rw [hE] at hew
      exact pushDisjoint_arith (2 ^ (64 - pbc)) W (workerPartitionPiece (64 - pbc) (W - 1)) p
        hpiece1 w w' x hw hw' hlt hbw hew hbw'
    · have hlt : w' < w := by omega
      rw [hB] at hbw hbw'
      rw [hE] at hew'
      exact pushDisjoint_arith (2 ^ (64 - pbc)) W (workerPartitionPiece (64 - pbc) (W - 1)) p
        hpiece1 w' w x hw' hw hlt hbw' hew' hbw
  · unfold pushWorkerRangeEnd
    simp
  · intro w hw
    rw [hB, hE]
    have hmulW0 : ∀ q : Nat, q * (W - 1) + q = q * W := by
      intro q
      conv_rhs => rw [show W = W - 1 + 1 by omega]
      ring
    have hmulW := hmulW0 (workerPartitionPiece (64 - pbc) (W - 1))
    by_cases hwm : w = W - 1
    · rw [if_pos hwm, hwm]
      constructor
      · omega
      · omega
    · rw [if_neg hwm]
      have hs1 : workerPartitionPiece (64 - pbc) (W - 1) * (w + 1) =
          workerPartitionPiece (64 - pbc) (W - 1) * w + workerPartitionPiece (64 - pbc) (W - 1) := by
        ring
      have hs2 : workerPartitionPiece (64 - pbc) (W - 1) * (w + 1) ≤
          workerPartitionPiece (64 - pbc) (W - 1) * W :=
        Nat.mul_le_mul_left _ (by omega)
      constructor
      · omega
      · omega

/-- C10, witness. -/
theorem claim_C10_witness :
    ((∀ x, ((1 : Nat) <<< (64 - 62) ≤ x ∧ x ≤ (1 + 1) <<< (64 - 62) - 1) ↔
        ∃ w, w ≤ 2 - 1 ∧ pushWorkerRangeBegin (64 - 62) (2 - 1) 1 w ≤ x ∧
          x ≤ pushWorkerRangeEnd (64 - 62) (2 ^ 62 - 1) (2 - 1) 1 w) ∧
      (∀ w w' x, w ≤ 2 - 1 → w' ≤ 2 - 1 → w ≠ w' →
        pushWorkerRangeBegin (64 - 62) (2 - 1) 1 w ≤ x →
        x ≤ pushWorkerRangeEnd (64 - 62) (2 ^ 62 - 1) (2 - 1) 1 w →
        ¬(pushWorkerRangeBegin (64 - 62) (2 - 1) 1 w' ≤ x ∧
          x ≤ pushWorkerRangeEnd (64 - 62) (2 ^ 62 - 1) (2 - 1) 1 w')) ∧
      pushWorkerRangeEnd (64 - 62) (2 ^ 62 - 1) (2 - 1) (2 ^ 62 - 1) (2 - 1) = U64 - 1 ∧
      (∀ w, w ≤ 2 - 1 →
        pushWorkerRangeBegin (64 - 62) (2 - 1) 1 w ≤
          pushWorkerRangeEnd (64 - 62) (2 ^ 62 - 1) (2 - 1) 1 w ∧
        pushWorkerRangeEnd (64 - 62) (2 ^ 62 - 1) (2 - 1) 1 w < U64)) :=
  claim_C10_push_worker_ranges 62 2 1 (by decide) (by decide) (by decide) (by norm_num)
    (by norm_num)

end Valuestore
